import Mathlib

/-!
Verification development for the dex-trend-api order-matching bot.

The embedding models the matcher-bot variant in `src/index.js`
(`fetchOpenOrders`, `pairKey`, `tryInternalMatches`, `start`): snapshotting
open orders, grouping them by unordered token-pair key, and the nested
buy/sell scan that issues `matchOrders` calls and re-reads both orders after
each attempt.  External ledger interactions (contract reads, transaction
submission) are modelled by explicit oracles (`Env`, `getOrder` functions);
traces of ledger calls are recorded as `Event` lists.
-/

namespace DexTrend

/-! ## Strings: JS `toLowerCase` and the default array sort comparator -/

/-- JS `String.prototype.toLowerCase` restricted to the ASCII range, as a map
over the characters (token addresses are ASCII hex strings). -/
def toLowerStr (s : String) : String :=
  ⟨s.data.map Char.toLower⟩

/-- Lexicographic comparison of character lists by code point, the order used
by the default `Array.prototype.sort` comparator on strings. -/
def leChars : List Char → List Char → Bool
  | [], _ => true
  | _ :: _, [] => false
  | a :: as, b :: bs =>
    if a < b then true
    else if b < a then false
    else leChars as bs

/-! ## Data model: raw ledger records and normalized orders -/

/-- An order record as returned by `executor.getOrder` (after the matcher
bot's defensive field extraction has produced values of the right types). -/
structure RawOrder where
  maker : String
  tokenIn : String
  tokenOut : String
  pool : String
  amountIn : Nat
  expiry : Nat
  filled : Bool
  cancelled : Bool
  orderType : Nat
  targetPrice1e18 : Nat
deriving DecidableEq, Repr

/-- A normalized order as produced by `fetchOpenOrders` (matcher-bot
variant): lower-cased token/pool addresses plus the record's id. -/
structure Order where
  id : Nat
  maker : String
  tokenIn : String
  tokenOut : String
  pool : String
  amountIn : Nat
  expiry : Nat
  filled : Bool
  cancelled : Bool
  orderType : Nat
  targetPrice1e18 : Nat
deriving DecidableEq, Repr

/-- `ethers.ZeroAddress`. -/
def zeroAddress : String := "0x0000000000000000000000000000000000000000"

/-- The per-record normalization done in `fetchOpenOrders`'s loop body. -/
def normalizeOrder (id : Nat) (o : RawOrder) : Order :=
  { id := id
    maker := o.maker
    tokenIn := toLowerStr o.tokenIn
    tokenOut := toLowerStr o.tokenOut
    pool := toLowerStr o.pool
    amountIn := o.amountIn
    expiry := o.expiry
    filled := o.filled
    cancelled := o.cancelled
    orderType := o.orderType
    targetPrice1e18 := o.targetPrice1e18 }

/-- The inclusion decision `fetchOpenOrders` applies to each successfully
read record: skip falsy/zero makers, then keep the record iff
`!filled && !cancelled && expiry > now`. -/
def includeOrder (now : Nat) (p : Nat × RawOrder) : Option Order :=
  if p.2.maker = "" ∨ p.2.maker = zeroAddress then none
  else if !p.2.filled && !p.2.cancelled && decide (now < p.2.expiry) then
    some (normalizeOrder p.1 p.2)
  else none

/-- `fetchOpenOrders` (matcher-bot variant, `src/index.js` lines 795-853).
`nextOrderId` is the ledger's id-counter read (its failure rejects the whole
snapshot); `getOrder id = none` models a failed per-id read, which the
`.catch(() => null)` in the source swallows. -/
def fetchOpenOrders (nextOrderId : Except Unit Nat)
    (getOrder : Nat → Option RawOrder) (now : Nat) : Except Unit (List Order) :=
  match nextOrderId with
  | .error e => .error e
  | .ok nextId =>
    let reads := (List.range' 1 (nextId - 1)).filterMap
      (fun id => (getOrder id).map (fun o => (id, o)))
    .ok (reads.filterMap (includeOrder now))

/-- Modelled from the spec: the derived predicate
`open(Order, now) = !filled && !cancelled && amountIn > 0 && expiry > now`
(spec section 3).  The source never defines this predicate; it is written
here from the spec's words to compare against the code's snapshot filter. -/
def specOpen (o : Order) (now : Nat) : Prop :=
  o.filled = false ∧ o.cancelled = false ∧ 0 < o.amountIn ∧ now < o.expiry

instance (o : Order) (now : Nat) : Decidable (specOpen o now) := by
  unfold specOpen; infer_instance

/-! ## Pair grouping -/

/-- `pairKey` (matcher-bot variant, `src/index.js` lines 858-861):
lower-case both addresses, sort the two-element array with the default
string comparator, join with a dash. -/
def pairKey (a b : String) : String :=
  let x := toLowerStr a
  let y := toLowerStr b
  if leChars x.data y.data then x ++ "-" ++ y else y ++ "-" ++ x

/-- The token-pair key of an order, as used to group the snapshot. -/
def orderKey (o : Order) : String := pairKey o.tokenIn o.tokenOut

/-- One step of building the insertion-ordered group map
(`if (!groups.has(key)) groups.set(key, []); groups.get(key).push(o)`). -/
def insertGroup (k : String) (o : Order) :
    List (String × List Order) → List (String × List Order)
  | [] => [(k, [o])]
  | (k', g) :: rest =>
    if k' = k then (k', g ++ [o]) :: rest
    else (k', g) :: insertGroup k o rest

/-- The group map built by `tryInternalMatches` (matcher-bot variant,
`src/index.js` lines 876-881), as an insertion-ordered association list. -/
def groupsOf (orders : List Order) : List (String × List Order) :=
  orders.foldl (fun acc o => insertGroup (orderKey o) o acc) []

/-- Lookup of a group's bucket by key (empty when the key is absent). -/
def bucket (k : String) : List (String × List Order) → List Order
  | [] => []
  | (k', g) :: rest => if k' = k then g else bucket k rest

/-- Sum of the group sizes. -/
def sumSizes (gs : List (String × List Order)) : Nat :=
  gs.foldr (fun g acc => g.2.length + acc) 0

/-! ## The match planner (`tryInternalMatches`, matcher-bot variant) -/

/-- The state of an order as re-read from the ledger after a match attempt
(`updatedBuy.filled || updatedBuy.cancelled || updatedBuy.amountIn === 0n`
consults exactly these fields). -/
structure ChainOrder where
  filled : Bool
  cancelled : Bool
  amountIn : Nat
deriving DecidableEq, Repr

/-- The closed test applied to a re-read order. -/
def closedOrder (c : ChainOrder) : Bool :=
  c.filled || c.cancelled || decide (c.amountIn = 0)

/-- Oracle for the external ledger during a planning cycle: the result of the
n-th `matchOrders` call of the cycle, and the record returned by the
re-reading `getOrder` calls issued right after that attempt. -/
structure Env where
  matchSucceeds : Nat → Nat → Nat → Bool
  reRead : Nat → Nat → ChainOrder

/-- A ledger interaction recorded by the planner: a `matchOrders` call (with
its success/failure result) or a re-reading `getOrder` call. -/
inductive Event where
  | matchCall (buyId sellId : Nat) (ok : Bool)
  | reReadCall (orderId : Nat) (st : ChainOrder)
deriving DecidableEq, Repr

/-- Stable insertion step for the descending buy sort
(`buys.sort((a, b) => Number(b.targetPrice1e18 - a.targetPrice1e18))`). -/
def insertByDesc (o : Order) : List Order → List Order
  | [] => [o]
  | y :: ys =>
    if o.targetPrice1e18 < y.targetPrice1e18 then y :: insertByDesc o ys
    else o :: y :: ys

/-- Stable insertion step for the ascending sell sort
(`sells.sort((a, b) => Number(a.targetPrice1e18 - b.targetPrice1e18))`). -/
def insertByAsc (o : Order) : List Order → List Order
  | [] => [o]
  | y :: ys =>
    if y.targetPrice1e18 < o.targetPrice1e18 then y :: insertByAsc o ys
    else o :: y :: ys

/-- Buys sorted descending by `targetPrice1e18`. -/
def sortBuys (l : List Order) : List Order := l.foldr insertByDesc []

/-- Sells sorted ascending by `targetPrice1e18`. -/
def sortSells (l : List Order) : List Order := l.foldr insertByAsc []

/-- The inner `for (const sell of sells)` loop for one buy (`src/index.js`
lines 897-936).  A sell failing the price gate is skipped (`continue`); the
first sell passing it triggers a `matchOrders` attempt, then re-reads of both
orders; if either re-read is closed the whole cycle stops (`return`),
otherwise the loop breaks to the next buy.  Returns the event trace, a flag
set when the cycle must stop, and the updated attempt counter. -/
def innerLoop (env : Env) (buy : Order) :
    List Order → Nat → List Event × Bool × Nat
  | [], n => ([], false, n)
  | sell :: rest, n =>
    if buy.targetPrice1e18 < sell.targetPrice1e18 then
      innerLoop env buy rest n
    else
      let ok := env.matchSucceeds n buy.id sell.id
      let ub := env.reRead n buy.id
      let us := env.reRead n sell.id
      ([Event.matchCall buy.id sell.id ok,
        Event.reReadCall buy.id ub,
        Event.reReadCall sell.id us],
       closedOrder ub || closedOrder us, n + 1)

/-- The outer `for (const buy of buys)` loop of one group. -/
def buysLoop (env : Env) :
    List Order → List Order → Nat → List Event × Bool × Nat
  | [], _, n => ([], false, n)
  | buy :: rest, sells, n =>
    let r := innerLoop env buy sells n
    if r.2.1 then (r.1, true, r.2.2)
    else
      let r2 := buysLoop env rest sells r.2.2
      (r.1 ++ r2.1, r2.2.1, r2.2.2)

/-- The `for (const [key, orders] of groups.entries())` loop.  A cycle-stop
from a group's scan (`return` in the source) abandons all remaining groups. -/
def groupsLoop (env : Env) :
    List (String × List Order) → Nat → List Event × Nat
  | [], n => ([], n)
  | (_, orders) :: rest, n =>
    if orders.isEmpty then groupsLoop env rest n
    else
      let buysU := orders.filter (fun o => o.orderType == 0)
      let sellsU := orders.filter (fun o => o.orderType == 1)
      if buysU.isEmpty || sellsU.isEmpty then groupsLoop env rest n
      else
        let r := buysLoop env (sortBuys buysU) (sortSells sellsU) n
        if r.2.1 then (r.1, r.2.2)
        else
          let r2 := groupsLoop env rest r.2.2
          (r.1 ++ r2.1, r2.2)

/-- `tryInternalMatches` (matcher-bot variant, `src/index.js` lines 866-941)
applied to an already-fetched snapshot: group the open orders, then run the
nested buy/sell scan, returning the trace of ledger calls issued. -/
def tryInternalMatches (env : Env) (openOrders : List Order) : List Event :=
  if openOrders.isEmpty then []
  else (groupsLoop env (groupsOf openOrders) 0).1

/-- One full reconciliation cycle: snapshot then scan.  A failed snapshot
(id-counter read error) produces no ledger calls — the loop in `start`
catches the rejection and moves on to the next tick. -/
def cycleEvents (nextOrderId : Except Unit Nat)
    (getOrder : Nat → Option RawOrder) (now : Nat) (env : Env) : List Event :=
  match fetchOpenOrders nextOrderId getOrder now with
  | .error _ => []
  | .ok l => tryInternalMatches env l

/-- `k` consecutive cycles of the `start` loop against an unchanged external
ledger.  The planner keeps no state between cycles, so each iteration is a
fresh `tryInternalMatches` call. -/
def runCycles (nextOrderId : Except Unit Nat)
    (getOrder : Nat → Option RawOrder) (now : Nat) (env : Env) :
    Nat → List Event
  | 0 => []
  | k + 1 =>
    runCycles nextOrderId getOrder now env k ++
      cycleEvents nextOrderId getOrder now env

/-- Outcome of one iteration of the `start` loop body: the `try/catch`
swallows both success and cycle failure, so the loop always continues. -/
inductive LoopOutcome where
  | continued
deriving DecidableEq, Repr

/-- One iteration of `start`'s `while (true)` body (`src/index.js` lines
947-957): `try { await tryInternalMatches() } catch (err) { log }`. -/
def loopIter (r : Except Unit (List Event)) : LoopOutcome :=
  match r with
  | .ok _ => .continued
  | .error _ => .continued

/-! ## Trace observations -/

/-- Is the event a `matchOrders` call? -/
def isMatchEv : Event → Bool
  | .matchCall _ _ _ => true
  | .reReadCall _ _ => false

/-- Is the event a re-read that returned a closed order? -/
def isClosedRe : Event → Bool
  | .matchCall _ _ _ => false
  | .reReadCall _ st => closedOrder st

/-- Number of `matchOrders` calls in a trace. -/
def countMatch (tr : List Event) : Nat := (tr.filter isMatchEv).length

/-- Number of `matchOrders` calls for the specific pair `(b, s)`. -/
def countMatchPair (b s : Nat) (tr : List Event) : Nat :=
  (tr.filter (fun e =>
    match e with
    | .matchCall b' s' _ => b' == b && s' == s
    | .reReadCall _ _ => false)).length

/-- No event of the trace is a closed re-read. -/
def noClosedRe (tr : List Event) : Prop :=
  ∀ e ∈ tr, isClosedRe e = false

/-- Once a re-read returns a closed order, no later `matchOrders` call
appears in the trace. -/
def stopsAfterClosed : List Event → Prop
  | [] => True
  | e :: rest =>
    (isClosedRe e = true → ∀ x ∈ rest, isMatchEv x = false) ∧
      stopsAfterClosed rest

/-- The trace is a sequence of attempt blocks: every `matchOrders` call is
immediately followed by re-reads of the two matched orders, buy first. -/
inductive ReReadsFollow : List Event → Prop where
  | nil : ReReadsFollow []
  | block (b s : Nat) (ok : Bool) (u v : ChainOrder) {tail : List Event} :
      ReReadsFollow tail →
      ReReadsFollow (Event.matchCall b s ok :: Event.reReadCall b u ::
        Event.reReadCall s v :: tail)

/-! ## Constants the spec assumes but the source never defines -/

/-- Modelled from the spec: the configured dust threshold (`DUST_THRESHOLD`)
of spec sections 4.3 and 8, instantiated with the value of spec scenario 2.
No such constant exists anywhere in the source. -/
def DUST_THRESHOLD : Nat := 1000000000000

/-- Modelled from the spec: the operator-configured self-match allow-list of
spec section 4.3.  No such list exists anywhere in the source, so it is
modelled as empty (nothing configured). -/
def ALLOW_LIST : List String := []

/-- Modelled from the spec: the price-crossing eligibility test of spec
section 4.3, `buy.targetPrice >= sell.targetPrice - floor(buy.targetPrice /
10000)` (a 1-basis-point tolerance computed from the buy side). -/
def specEligible (b s : Order) : Prop :=
  (s.targetPrice1e18 : Int) - (b.targetPrice1e18 / 10000 : Nat) ≤
    (b.targetPrice1e18 : Int)

instance (b s : Order) : Decidable (specEligible b s) := by
  unfold specEligible; infer_instance

/-! ## String comparison lemmas -/

theorem leChars_total : ∀ as bs : List Char,
    leChars as bs = true ∨ leChars bs as = true
  | [], _ => Or.inl rfl
  | _ :: _, [] => Or.inr rfl
  | a :: as, b :: bs => by
    by_cases hab : a < b
    · exact Or.inl (by simp [leChars, hab])
    · by_cases hba : b < a
      · exact Or.inr (by simp [leChars, hba])
      · rcases leChars_total as bs with h | h
        · exact Or.inl (by simp [leChars, hab, hba, h])
        · exact Or.inr (by simp [leChars, hab, hba, h])

theorem leChars_antisymm : ∀ as bs : List Char,
    leChars as bs = true → leChars bs as = true → as = bs
  | [], [], _, _ => rfl
  | [], _ :: _, _, h => by simp [leChars] at h
  | _ :: _, [], h, _ => by simp [leChars] at h
  | a :: as, b :: bs, h₁, h₂ => by
    by_cases hab : a < b
    · simp [leChars, hab, not_lt_of_gt hab] at h₂
    · by_cases hba : b < a
      · simp [leChars, hba, hab] at h₁
      · have hc : a = b := le_antisymm (not_lt.mp hba) (not_lt.mp hab)
        subst hc
        simp only [leChars, if_neg hab] at h₁ h₂
        rw [leChars_antisymm as bs h₁ h₂]

theorem string_eq_of_data_eq {s t : String} (h : s.data = t.data) : s = t := by
  cases s; cases t; exact congrArg String.mk h

/-! ## Grouping lemmas -/

theorem bucket_insertGroup (k k' : String) (o : Order) :
    ∀ acc : List (String × List Order),
      bucket k (insertGroup k' o acc) =
        if k' = k then bucket k acc ++ [o] else bucket k acc
  | [] => by
    by_cases h : k' = k <;> simp [insertGroup, bucket, h]
  | (k'', g) :: rest => by
    by_cases h1 : k'' = k'
    · subst h1
      by_cases h2 : k'' = k <;> simp [insertGroup, bucket, h2]
    · by_cases h2 : k'' = k
      · subst h2
        have h3 : ¬ k' = k'' := fun h => h1 h.symm
        simp [insertGroup, bucket, h1, h3]
      · simp [insertGroup, bucket, h1, h2, bucket_insertGroup k k' o rest]

theorem sumSizes_cons (k : String) (g : List Order)
    (rest : List (String × List Order)) :
    sumSizes ((k, g) :: rest) = g.length + sumSizes rest := rfl

theorem sumSizes_insertGroup (k : String) (o : Order) :
    ∀ acc : List (String × List Order),
      sumSizes (insertGroup k o acc) = sumSizes acc + 1
  | [] => by simp [insertGroup, sumSizes]
  | (k'', g) :: rest => by
    by_cases h : k'' = k
    · simp only [insertGroup, if_pos h, sumSizes_cons, List.length_append,
        List.length_cons, List.length_nil]
      omega
    · simp only [insertGroup, if_neg h, sumSizes_cons,
        sumSizes_insertGroup k o rest]
      omega

theorem bucket_foldl (k : String) :
    ∀ (l : List Order) (acc : List (String × List Order)),
      bucket k (l.foldl (fun acc o => insertGroup (orderKey o) o acc) acc) =
        bucket k acc ++ l.filter (fun o => orderKey o == k)
  | [], acc => by simp
  | o :: l, acc => by
    rw [List.foldl_cons, bucket_foldl k l, bucket_insertGroup]
    by_cases h : orderKey o = k
    · simp [h, List.filter_cons]
    · simp [h, List.filter_cons]

/-- Each bucket of the group map is exactly the sublist of snapshot orders
carrying that pair key. -/
theorem bucket_groupsOf (k : String) (l : List Order) :
    bucket k (groupsOf l) = l.filter (fun o => orderKey o == k) := by
  rw [groupsOf, bucket_foldl]
  simp [bucket]

theorem sumSizes_foldl :
    ∀ (l : List Order) (acc : List (String × List Order)),
      sumSizes (l.foldl (fun acc o => insertGroup (orderKey o) o acc) acc) =
        sumSizes acc + l.length
  | [], acc => by simp
  | o :: l, acc => by
    rw [List.foldl_cons, sumSizes_foldl l, sumSizes_insertGroup]
    simp
    omega

/-- The group sizes sum to the number of snapshotted orders. -/
theorem sumSizes_groupsOf (l : List Order) :
    sumSizes (groupsOf l) = l.length := by
  rw [groupsOf, sumSizes_foldl]
  simp [sumSizes]

theorem mem_keys_insertGroup (k₁ k : String) (o : Order) :
    ∀ acc : List (String × List Order),
      k₁ ∈ (insertGroup k o acc).map Prod.fst ↔
        k₁ ∈ acc.map Prod.fst ∨ k₁ = k
  | [] => by simp [insertGroup]
  | (k'', g) :: rest => by
    by_cases h : k'' = k
    · subst h
      simp [insertGroup]
      tauto
    · simp [insertGroup, h, mem_keys_insertGroup k₁ k o rest]
      tauto

theorem nodup_keys_insertGroup (k : String) (o : Order) :
    ∀ acc : List (String × List Order),
      (acc.map Prod.fst).Nodup → ((insertGroup k o acc).map Prod.fst).Nodup
  | [] => by simp [insertGroup]
  | (k'', g) :: rest => by
    intro h
    by_cases hk : k'' = k
    · subst hk
      simp only [insertGroup, if_pos rfl]
      simpa using h
    · simp only [List.map_cons, List.nodup_cons] at h
      simp only [insertGroup, if_neg hk, List.map_cons, List.nodup_cons]
      constructor
      · intro hbad
        rcases (mem_keys_insertGroup k'' k o rest).mp hbad with h1 | h2
        · exact h.1 h1
        · exact hk h2
      · exact nodup_keys_insertGroup k o rest h.2

theorem nodup_keys_foldl :
    ∀ (l : List Order) (acc : List (String × List Order)),
      (acc.map Prod.fst).Nodup →
        ((l.foldl (fun acc o => insertGroup (orderKey o) o acc) acc).map
            Prod.fst).Nodup
  | [], acc => fun h => h
  | o :: l, acc => fun h => by
    rw [List.foldl_cons]
    exact nodup_keys_foldl l _ (nodup_keys_insertGroup _ o acc h)

/-- The group map has no duplicate keys. -/
theorem nodup_keys_groupsOf (l : List Order) :
    ((groupsOf l).map Prod.fst).Nodup :=
  nodup_keys_foldl l [] (by simp)

/-! ## Planner trace lemmas -/

/-- The inner loop either performs no ledger call at all (every sell failed
the price gate) or performs exactly one `matchOrders` attempt followed by the
two re-reads, stopping the cycle iff a re-read came back closed. -/
theorem innerLoop_cases (env : Env) (buy : Order) :
    ∀ (sells : List Order) (n : Nat),
      innerLoop env buy sells n = ([], false, n) ∨
      ∃ sid ok u v, innerLoop env buy sells n =
        ([Event.matchCall buy.id sid ok, Event.reReadCall buy.id u,
          Event.reReadCall sid v], closedOrder u || closedOrder v, n + 1)
  | [], _ => Or.inl rfl
  | sell :: rest, n => by
    by_cases h : buy.targetPrice1e18 < sell.targetPrice1e18
    · simpa [innerLoop, h] using innerLoop_cases env buy rest n
    · exact Or.inr ⟨sell.id, env.matchSucceeds n buy.id sell.id,
        env.reRead n buy.id, env.reRead n sell.id, by simp [innerLoop, h]⟩

theorem noClosedRe_append {xs ys : List Event} (hx : noClosedRe xs)
    (hy : noClosedRe ys) : noClosedRe (xs ++ ys) := by
  intro e he
  rcases List.mem_append.mp he with h | h
  · exact hx e h
  · exact hy e h

theorem stopsAfterClosed_append {xs ys : List Event}
    (h1 : stopsAfterClosed xs) (hx : noClosedRe xs)
    (h2 : stopsAfterClosed ys) : stopsAfterClosed (xs ++ ys) := by
  induction xs with
  | nil => simpa using h2
  | cons e rest ih =>
    refine ⟨fun hcl => absurd (hx e (by simp)) (by simp [hcl]), ?_⟩
    exact ih h1.2 (fun x hx' => hx x (by simp [hx']))

theorem stopsAfterClosed_block (b s : Nat) (ok : Bool) (u v : ChainOrder) :
    stopsAfterClosed [Event.matchCall b s ok, Event.reReadCall b u,
      Event.reReadCall s v] := by
  refine ⟨by simp [isClosedRe], ?_, ?_, trivial⟩
  · intro _ x hx
    rcases List.mem_singleton.mp hx with rfl
    simp [isMatchEv]
  · intro _ x hx
    simp at hx

theorem noClosedRe_block {b s : Nat} {ok : Bool} {u v : ChainOrder}
    (hu : closedOrder u = false) (hv : closedOrder v = false) :
    noClosedRe [Event.matchCall b s ok, Event.reReadCall b u,
      Event.reReadCall s v] := by
  intro e he
  simp at he
  rcases he with rfl | rfl | rfl <;> simp [isClosedRe, hu, hv]

theorem reReadsFollow_append {xs ys : List Event} (hx : ReReadsFollow xs)
    (hy : ReReadsFollow ys) : ReReadsFollow (xs ++ ys) := by
  induction hx with
  | nil => simpa using hy
  | block b s ok u v _ ih => exact ReReadsFollow.block b s ok u v ih

/-- Bundled invariants of the per-group buy loop: the trace stops issuing
matches after a closed re-read; if the cycle was not stopped, no closed
re-read occurred; every match is followed by its two re-reads. -/
theorem buysLoop_props (env : Env) :
    ∀ (buys sells : List Order) (n : Nat),
      stopsAfterClosed (buysLoop env buys sells n).1 ∧
        ((buysLoop env buys sells n).2.1 = false →
          noClosedRe (buysLoop env buys sells n).1) ∧
        ReReadsFollow (buysLoop env buys sells n).1
  | [], _, _ => ⟨trivial, fun _ => by intro e he; simp [buysLoop] at he,
      ReReadsFollow.nil⟩
  | buy :: rest, sells, n => by
    rcases innerLoop_cases env buy sells n with hr | ⟨sid, ok, u, v, hr⟩
    · have ih := buysLoop_props env rest sells n
      simpa [buysLoop, hr] using ih
    · by_cases hc : (closedOrder u || closedOrder v) = true
      · have : buysLoop env (buy :: rest) sells n =
            ([Event.matchCall buy.id sid ok, Event.reReadCall buy.id u,
              Event.reReadCall sid v], true, n + 1) := by
          simp [buysLoop, hr, hc]
        rw [this]
        exact ⟨stopsAfterClosed_block _ _ _ _ _, by simp,
          ReReadsFollow.block _ _ _ _ _ ReReadsFollow.nil⟩
      · have hcf : (closedOrder u || closedOrder v) = false :=
          Bool.not_eq_true _ ▸ eq_false_of_ne_true hc
        have hu : closedOrder u = false := by
          rcases Bool.or_eq_false_iff.mp hcf with ⟨h, _⟩; exact h
        have hv : closedOrder v = false := by
          rcases Bool.or_eq_false_iff.mp hcf with ⟨_, h⟩; exact h
        have ih := buysLoop_props env rest sells (n + 1)
        have hstep : buysLoop env (buy :: rest) sells n =
            ([Event.matchCall buy.id sid ok, Event.reReadCall buy.id u,
              Event.reReadCall sid v] ++ (buysLoop env rest sells (n + 1)).1,
             (buysLoop env rest sells (n + 1)).2.1,
             (buysLoop env rest sells (n + 1)).2.2) := by
          simp [buysLoop, hr, hcf]
        rw [hstep]
        refine ⟨?_, ?_, ?_⟩
        · exact stopsAfterClosed_append (stopsAfterClosed_block _ _ _ _ _)
            (noClosedRe_block hu hv) ih.1
        · intro hflag
          exact noClosedRe_append (noClosedRe_block hu hv) (ih.2.1 hflag)
        · exact reReadsFollow_append
            (ReReadsFollow.block _ _ _ _ _ ReReadsFollow.nil) (ih.2.2)

/-- Bundled invariants of the group loop. -/
theorem groupsLoop_props (env : Env) :
    ∀ (gs : List (String × List Order)) (n : Nat),
      stopsAfterClosed (groupsLoop env gs n).1 ∧
        ReReadsFollow (groupsLoop env gs n).1
  | [], _ => ⟨trivial, ReReadsFollow.nil⟩
  | (k, orders) :: rest, n => by
    by_cases h0 : orders.isEmpty
    · simpa [groupsLoop, h0] using groupsLoop_props env rest n
    · by_cases h1 : (orders.filter (fun o => o.orderType == 0)).isEmpty ||
          (orders.filter (fun o => o.orderType == 1)).isEmpty
      · simpa [groupsLoop, h0, h1] using groupsLoop_props env rest n
      · have hb := buysLoop_props env
          (sortBuys (orders.filter (fun o => o.orderType == 0)))
          (sortSells (orders.filter (fun o => o.orderType == 1))) n
        by_cases hflag : (buysLoop env
            (sortBuys (orders.filter (fun o => o.orderType == 0)))
            (sortSells (orders.filter (fun o => o.orderType == 1))) n).2.1
        · have : groupsLoop env ((k, orders) :: rest) n =
              ((buysLoop env
                (sortBuys (orders.filter (fun o => o.orderType == 0)))
                (sortSells (orders.filter (fun o => o.orderType == 1))) n).1,
               (buysLoop env
                (sortBuys (orders.filter (fun o => o.orderType == 0)))
                (sortSells (orders.filter (fun o => o.orderType == 1))) n).2.2) := by
            simp [groupsLoop, h0, h1, hflag]
          rw [this]
          exact ⟨hb.1, hb.2.2⟩
        · have ih := groupsLoop_props env rest
            (buysLoop env
              (sortBuys (orders.filter (fun o => o.orderType == 0)))
              (sortSells (orders.filter (fun o => o.orderType == 1))) n).2.2
          have hflag' : (buysLoop env
              (sortBuys (orders.filter (fun o => o.orderType == 0)))
              (sortSells (orders.filter (fun o => o.orderType == 1))) n).2.1
              = false := eq_false_of_ne_true hflag
          have : groupsLoop env ((k, orders) :: rest) n =
              ((buysLoop env
                (sortBuys (orders.filter (fun o => o.orderType == 0)))
                (sortSells (orders.filter (fun o => o.orderType == 1))) n).1 ++
               (groupsLoop env rest
                 (buysLoop env
                   (sortBuys (orders.filter (fun o => o.orderType == 0)))
                   (sortSells (orders.filter (fun o => o.orderType == 1))) n).2.2).1,
               (groupsLoop env rest
                 (buysLoop env
                   (sortBuys (orders.filter (fun o => o.orderType == 0)))
                   (sortSells (orders.filter (fun o => o.orderType == 1))) n).2.2).2) := by
            simp [groupsLoop, h0, h1, hflag']
          rw [this]
          exact ⟨stopsAfterClosed_append hb.1 (hb.2.1 hflag') ih.1,
            reReadsFollow_append hb.2.2 ih.2⟩

theorem countMatch_nil : countMatch [] = 0 := rfl

theorem countMatch_block (b s : Nat) (ok : Bool) (u v : ChainOrder) :
    countMatch [Event.matchCall b s ok, Event.reReadCall b u,
      Event.reReadCall s v] = 1 := rfl

/-- Each buy produces at most one `matchOrders` call per cycle: after any
attempt, the sell loop is left (`return` or `break`). -/
theorem innerLoop_countMatch_le_one (env : Env) (buy : Order)
    (sells : List Order) (n : Nat) :
    countMatch (innerLoop env buy sells n).1 ≤ 1 := by
  rcases innerLoop_cases env buy sells n with hr | ⟨sid, ok, u, v, hr⟩ <;>
    simp [hr, countMatch, isMatchEv]

/-- The inner loop's trace is a (possibly empty) attempt block. -/
theorem innerLoop_reReadsFollow (env : Env) (buy : Order)
    (sells : List Order) (n : Nat) :
    ReReadsFollow (innerLoop env buy sells n).1 := by
  rcases innerLoop_cases env buy sells n with hr | ⟨sid, ok, u, v, hr⟩
  · simp [hr]
    exact ReReadsFollow.nil
  · simp [hr]
    exact ReReadsFollow.block _ _ _ _ _ ReReadsFollow.nil

theorem countMatchPair_append (b s : Nat) (xs ys : List Event) :
    countMatchPair b s (xs ++ ys) =
      countMatchPair b s xs + countMatchPair b s ys := by
  simp [countMatchPair, List.filter_append]

/-- A snapshot consisting of exactly one buy and one counterpart sell whose
prices cross produces exactly one attempt block: the match call for the pair
followed by the two re-reads. -/
theorem twoOrderTrace (env : Env) (b s : Order) (hb : b.orderType = 0)
    (hs : s.orderType = 1) (hk : orderKey s = orderKey b)
    (hp : s.targetPrice1e18 ≤ b.targetPrice1e18) :
    tryInternalMatches env [b, s] =
      [Event.matchCall b.id s.id (env.matchSucceeds 0 b.id s.id),
       Event.reReadCall b.id (env.reRead 0 b.id),
       Event.reReadCall s.id (env.reRead 0 s.id)] := by
  have hgate : ¬ b.targetPrice1e18 < s.targetPrice1e18 := not_lt.mpr hp
  have hg : groupsOf [b, s] = [(orderKey b, [b, s])] := by
    simp [groupsOf, insertGroup, hk]
  rw [tryInternalMatches, if_neg (by simp), hg]
  by_cases hcl : (closedOrder (env.reRead 0 b.id) ||
      closedOrder (env.reRead 0 s.id)) = true <;>
    simp [groupsLoop, hb, hs, sortBuys, sortSells, insertByDesc, insertByAsc,
      buysLoop, innerLoop, hgate, hcl]

/-- A snapshot consisting of exactly one buy and one counterpart sell whose
prices do not cross produces no ledger call at all. -/
theorem twoOrderTrace_empty (env : Env) (b s : Order) (hb : b.orderType = 0)
    (hs : s.orderType = 1) (hk : orderKey s = orderKey b)
    (hp : b.targetPrice1e18 < s.targetPrice1e18) :
    tryInternalMatches env [b, s] = [] := by
  have hg : groupsOf [b, s] = [(orderKey b, [b, s])] := by
    simp [groupsOf, insertGroup, hk]
  rw [tryInternalMatches, if_neg (by simp), hg]
  simp [groupsLoop, hb, hs, sortBuys, sortSells, insertByDesc, insertByAsc,
    buysLoop, innerLoop, hp]

/-! ## Snapshot lemmas -/

theorem normalizeOrder_id (i : Nat) (o : RawOrder) :
    (normalizeOrder i o).id = i := rfl

/-- The successfully read `(id, record)` pairs are exactly those with id in
`[1, nextId)` whose read did not fail. -/
theorem mem_reads {nextId : Nat} {g : Nat → Option RawOrder}
    {p : Nat × RawOrder} :
    p ∈ (List.range' 1 (nextId - 1)).filterMap
        (fun id => (g id).map (fun o => (id, o))) ↔
      (1 ≤ p.1 ∧ p.1 < 1 + (nextId - 1)) ∧ g p.1 = some p.2 := by
  constructor
  · intro h
    rcases List.mem_filterMap.mp h with ⟨a, ha, hmap⟩
    rcases Option.map_eq_some'.mp hmap with ⟨o, hgo, hpo⟩
    cases hpo
    exact ⟨List.mem_range'_1.mp ha, hgo⟩
  · rintro ⟨hrange, hg⟩
    exact List.mem_filterMap.mpr ⟨p.1, List.mem_range'_1.mpr hrange,
      by rw [hg, Option.map_some']⟩

/-- The per-record inclusion decision succeeds exactly when the maker is
present and non-zero and the record is unfilled, uncancelled and unexpired;
`amountIn` is never consulted. -/
theorem includeOrder_isSome_iff {now : Nat} {p : Nat × RawOrder} :
    (∃ o, includeOrder now p = some o) ↔
      (p.2.maker ≠ "" ∧ p.2.maker ≠ zeroAddress ∧ p.2.filled = false ∧
        p.2.cancelled = false ∧ now < p.2.expiry) := by
  unfold includeOrder
  by_cases h1 : p.2.maker = "" ∨ p.2.maker = zeroAddress
  · simp only [if_pos h1]
    constructor
    · rintro ⟨o, ho⟩
      cases ho
    · rintro ⟨hm1, hm2, _⟩
      rcases h1 with h | h
      · exact absurd h hm1
      · exact absurd h hm2
  · push_neg at h1
    simp only [if_neg (by tauto : ¬ (p.2.maker = "" ∨ p.2.maker = zeroAddress))]
    by_cases h2 : (!p.2.filled && !p.2.cancelled && decide (now < p.2.expiry))
        = true
    · simp only [if_pos h2]
      have := h2
      simp only [Bool.and_eq_true, Bool.not_eq_true', decide_eq_true_eq]
        at this
      exact ⟨fun _ => ⟨h1.1, h1.2, this.1.1, this.1.2, this.2⟩,
        fun _ => ⟨normalizeOrder p.1 p.2, rfl⟩⟩
    · simp only [if_neg h2]
      constructor
      · rintro ⟨o, ho⟩
        cases ho
      · rintro ⟨_, _, hf, hc, he⟩
        exact absurd (by simp [hf, hc, he]) h2

/-- When the inclusion decision keeps a record, the resulting snapshot entry
carries the record's id. -/
theorem includeOrder_id {now : Nat} {p : Nat × RawOrder} {o : Order}
    (h : includeOrder now p = some o) : o.id = p.1 := by
  unfold includeOrder at h
  by_cases h1 : p.2.maker = "" ∨ p.2.maker = zeroAddress
  · rw [if_pos h1] at h
    cases h
  · rw [if_neg h1] at h
    by_cases h2 : (!p.2.filled && !p.2.cancelled && decide (now < p.2.expiry))
        = true
    · rw [if_pos h2] at h
      cases h
      rfl
    · rw [if_neg h2] at h
      cases h

/-! ## Claim C1: snapshot open-filter -/

/-- Fixture for the C1 counterexample: an unfilled, uncancelled, unexpired
record whose remaining `amountIn` is zero. -/
def c1Raw : RawOrder :=
  ⟨"0xaa", "a", "b", "p", 0, 10, false, false, 0, 100⟩

/-- Fixture for the C1 counterexample: order 1 reads as `c1Raw`. -/
def c1Get : Nat → Option RawOrder :=
  fun id => if id = 1 then some c1Raw else none

/-- C1 counterexample: `fetchOpenOrders` includes an order with
`amountIn == 0`, although the spec's `open` predicate rejects it — the code
never checks `amountIn > 0` when building the snapshot. -/
theorem c1_counterexample :
    fetchOpenOrders (.ok 2) c1Get 5 = .ok [normalizeOrder 1 c1Raw] ∧
      ¬ specOpen (normalizeOrder 1 c1Raw) 5 :=
  ⟨rfl, by decide⟩

/-- C1 (amended): a successfully read order record is included in the
matcher bot's snapshot iff its maker is present and non-zero and
`!filled && !cancelled && expiry > now`; `amountIn` is not consulted. -/
theorem c1_snapshot_open_filter (nextId id now : Nat)
    (g : Nat → Option RawOrder) (ro : RawOrder) (h1 : 1 ≤ id)
    (h2 : id < nextId) (hg : g id = some ro) :
    ∃ L, fetchOpenOrders (.ok nextId) g now = .ok L ∧
      ((∃ o ∈ L, o.id = id) ↔
        (ro.maker ≠ "" ∧ ro.maker ≠ zeroAddress ∧ ro.filled = false ∧
          ro.cancelled = false ∧ now < ro.expiry)) := by
  refine ⟨_, rfl, ?_⟩
  constructor
  · rintro ⟨o, ho, hoid⟩
    rcases List.mem_filterMap.mp ho with ⟨p, hp, hpo⟩
    have hp1 : p.1 = id := by rw [← includeOrder_id hpo, hoid]
    rcases mem_reads.mp hp with ⟨_, hgp⟩
    rw [hp1, hg] at hgp
    have hro : ro = p.2 := Option.some.inj hgp
    have hpred := includeOrder_isSome_iff.mp ⟨o, hpo⟩
    rw [← hro] at hpred
    exact hpred
  · intro hpred
    rcases includeOrder_isSome_iff.mpr
        (by simpa using hpred : ((id, ro).2.maker ≠ "" ∧
          (id, ro).2.maker ≠ zeroAddress ∧ (id, ro).2.filled = false ∧
          (id, ro).2.cancelled = false ∧ now < (id, ro).2.expiry))
      with ⟨o, ho⟩
    refine ⟨o, ?_, includeOrder_id ho⟩
    exact List.mem_filterMap.mpr
      ⟨(id, ro), mem_reads.mpr ⟨⟨h1, by omega⟩, hg⟩, ho⟩

/-- Fixture for the C1 witness. -/
def c1WRaw : RawOrder :=
  ⟨"0xbb", "a", "b", "p", 9, 10, false, false, 0, 100⟩

/-- Fixture for the C1 witness. -/
def c1WGet : Nat → Option RawOrder :=
  fun id => if id = 1 then some c1WRaw else none

/-- C1 witness: the amended filter characterization at a concrete record. -/
theorem c1_witness :
    ∃ L, fetchOpenOrders (.ok 2) c1WGet 3 = .ok L ∧
      ((∃ o ∈ L, o.id = 1) ↔
        (c1WRaw.maker ≠ "" ∧ c1WRaw.maker ≠ zeroAddress ∧
          c1WRaw.filled = false ∧ c1WRaw.cancelled = false ∧
          3 < c1WRaw.expiry)) :=
  c1_snapshot_open_filter 2 1 3 c1WGet c1WRaw (by decide) (by decide) rfl

/-! ## Claim C2: price-crossing gate -/

/-- Fixture for the C2 counterexample: buy at 10000. -/
def c2Buy : Order :=
  ⟨1, "0xa1", "a", "b", "p", 5, 10, false, false, 0, 10000⟩

/-- Fixture for the C2 counterexample: counterpart sell at 10001. -/
def c2Sell : Order :=
  ⟨2, "0xa2", "b", "a", "p", 5, 10, false, false, 1, 10001⟩

/-- Fixture for the C2 counterexample. -/
def c2Env : Env := ⟨fun _ _ _ => true, fun _ _ => ⟨false, false, 5⟩⟩

/-- C2 counterexample: at buy price 10000 versus sell price 10001 the spec's
1-basis-point tolerance formula declares the pair eligible, but the code
issues no ledger call at all — its gate is the exact comparison
`buy.targetPrice1e18 < sell.targetPrice1e18 → continue` with no tolerance. -/
theorem c2_counterexample :
    specEligible c2Buy c2Sell ∧
      tryInternalMatches c2Env [c2Buy, c2Sell] = [] :=
  ⟨by decide, by decide⟩

/-- C2 (amended): for a buy and a counterpart sell, a match is attempted iff
`sell.targetPrice1e18 <= buy.targetPrice1e18` — the exact comparison, with no
tolerance allowance. -/
theorem c2_price_gate (env : Env) (b s : Order) (hb : b.orderType = 0)
    (hs : s.orderType = 1) (hk : orderKey s = orderKey b) :
    (∃ ok rest, tryInternalMatches env [b, s] =
        Event.matchCall b.id s.id ok :: rest) ↔
      s.targetPrice1e18 ≤ b.targetPrice1e18 := by
  constructor
  · rintro ⟨ok, rest, htr⟩
    by_contra hgt
    rw [twoOrderTrace_empty env b s hb hs hk (not_le.mp hgt)] at htr
    cases htr
  · intro hp
    rw [twoOrderTrace env b s hb hs hk hp]
    exact ⟨_, _, rfl⟩

/-- Fixture for the C2 witness. -/
def c2WBuy : Order :=
  ⟨7, "0xa3", "a", "b", "p", 5, 10, false, false, 0, 100⟩

/-- Fixture for the C2 witness. -/
def c2WSell : Order :=
  ⟨8, "0xa4", "b", "a", "p", 5, 10, false, false, 1, 90⟩

/-- Fixture for the C2 witness. -/
def c2WEnv : Env := ⟨fun _ _ _ => true, fun _ _ => ⟨false, false, 5⟩⟩

/-- C2 witness: the amended gate characterization at a concrete pair. -/
theorem c2_witness :
    (∃ ok rest, tryInternalMatches c2WEnv [c2WBuy, c2WSell] =
        Event.matchCall c2WBuy.id c2WSell.id ok :: rest) ↔
      c2WSell.targetPrice1e18 ≤ c2WBuy.targetPrice1e18 :=
  c2_price_gate c2WEnv c2WBuy c2WSell (by decide) (by decide) (by decide)

/-! ## Claim C3: retry bookkeeping -/

/-- Fixture for C3: a buy that reads identically every cycle. -/
def c3RawBuy : RawOrder :=
  ⟨"0xb1", "a", "b", "p", 5, 10, false, false, 0, 100⟩

/-- Fixture for C3: a counterpart sell that reads identically every cycle. -/
def c3RawSell : RawOrder :=
  ⟨"0xb2", "b", "a", "p", 5, 10, false, false, 1, 90⟩

/-- Fixture for C3: the static ledger (orders 1 and 2, never changing). -/
def c3Get : Nat → Option RawOrder :=
  fun id =>
    if id = 1 then some c3RawBuy
    else if id = 2 then some c3RawSell
    else none

/-- Fixture for C3: every `matchOrders` call fails and re-reads always show
both orders still open, so the pair stays a candidate forever. -/
def c3Env : Env := ⟨fun _ _ _ => false, fun _ _ => ⟨false, false, 5⟩⟩

/-- C3 counterexample: the same pair `(1, 2)` is attempted in each of 3
consecutive cycles (3 `matchOrders` calls), whereas under the claimed
bounded-retry policy the 3rd recorded attempt would abandon the pair
(cancellation instead of a match). -/
theorem c3_counterexample :
    countMatchPair 1 2 (runCycles (.ok 3) c3Get 5 c3Env 3) = 3 := by
  decide

/-- C3 (amended): the planner keeps no retry bookkeeping at all — a
persistently eligible pair whose match keeps failing is re-attempted exactly
once per cycle, unboundedly, and never abandoned. -/
theorem c3_unbounded_retry (k : Nat) :
    countMatchPair 1 2 (runCycles (.ok 3) c3Get 5 c3Env k) = k := by
  induction k with
  | zero => rfl
  | succ k ih =>
    have hone : countMatchPair 1 2 (cycleEvents (.ok 3) c3Get 5 c3Env) = 1 :=
      by decide
    have hstep : runCycles (.ok 3) c3Get 5 c3Env (k + 1) =
        runCycles (.ok 3) c3Get 5 c3Env k ++
          cycleEvents (.ok 3) c3Get 5 c3Env := rfl
    rw [hstep, countMatchPair_append, ih, hone]

/-! ## Claim C4: dust gate -/

/-- Fixture for C4: a buy far below `DUST_THRESHOLD`. -/
def c4Buy : Order :=
  ⟨3, "0xc1", "a", "b", "p", 5, 10, false, false, 0, 100⟩

/-- Fixture for C4: a counterpart sell far below `DUST_THRESHOLD`. -/
def c4Sell : Order :=
  ⟨4, "0xc2", "b", "a", "p", 7, 10, false, false, 1, 90⟩

/-- Fixture for C4. -/
def c4Env : Env := ⟨fun _ _ _ => true, fun _ _ => ⟨true, false, 0⟩⟩

/-- C4 counterexample: both sides are dust (amounts 5 and 7, far below the
threshold), yet the planner reaches the `matchOrders` call for the pair —
there is no dust gate in the code. -/
theorem c4_counterexample :
    c4Buy.amountIn < DUST_THRESHOLD ∧ c4Sell.amountIn < DUST_THRESHOLD ∧
      Event.matchCall 3 4 true ∈ tryInternalMatches c4Env [c4Buy, c4Sell] := by
  refine ⟨by decide, by decide, by decide⟩

/-- C4 (amended): the planner applies no dust gate — a buy/sell candidate
pair that crosses on price is attempted regardless of either side's
`amountIn`, including amounts below `DUST_THRESHOLD`. -/
theorem c4_no_dust_gate (env : Env) (b s : Order) (hb : b.orderType = 0)
    (hs : s.orderType = 1) (hk : orderKey s = orderKey b)
    (hp : s.targetPrice1e18 ≤ b.targetPrice1e18)
    (hdust : b.amountIn < DUST_THRESHOLD) :
    ∃ ok rest, tryInternalMatches env [b, s] =
      Event.matchCall b.id s.id ok :: rest := by
  rw [twoOrderTrace env b s hb hs hk hp]
  exact ⟨_, _, rfl⟩

/-- Fixture for the C4 witness. -/
def c4WBuy : Order :=
  ⟨13, "0xc3", "a", "b", "p", 1, 10, false, false, 0, 100⟩

/-- Fixture for the C4 witness. -/
def c4WSell : Order :=
  ⟨14, "0xc4", "b", "a", "p", 1, 10, false, false, 1, 100⟩

/-- Fixture for the C4 witness. -/
def c4WEnv : Env := ⟨fun _ _ _ => false, fun _ _ => ⟨false, false, 5⟩⟩

/-- C4 witness: the amended statement at a concrete dust pair. -/
theorem c4_witness :
    c4WBuy.amountIn < DUST_THRESHOLD ∧
      ∃ ok rest, tryInternalMatches c4WEnv [c4WBuy, c4WSell] =
        Event.matchCall c4WBuy.id c4WSell.id ok :: rest :=
  ⟨by decide, c4_no_dust_gate c4WEnv c4WBuy c4WSell (by decide) (by decide)
    (by decide) (by decide) (by decide)⟩

/-! ## Claim C5: self-match gate -/

/-- Fixture for C5: a buy and sell sharing maker `0xcc`. -/
def c5Buy : Order :=
  ⟨6, "0xcc", "a", "b", "p", 5, 10, false, false, 0, 100⟩

/-- Fixture for C5: the counterpart sell with the same maker. -/
def c5Sell : Order :=
  ⟨7, "0xcc", "b", "a", "p", 5, 10, false, false, 1, 90⟩

/-- Fixture for C5. -/
def c5Env : Env := ⟨fun _ _ _ => true, fun _ _ => ⟨true, false, 0⟩⟩

/-- C5 counterexample: both sides share a maker that is on no allow-list,
yet the planner issues the `matchOrders` call for the pair — there is no
self-match gate in the code. -/
theorem c5_counterexample :
    c5Buy.maker = c5Sell.maker ∧ c5Buy.maker ∉ ALLOW_LIST ∧
      Event.matchCall 6 7 true ∈ tryInternalMatches c5Env [c5Buy, c5Sell] := by
  refine ⟨by decide, by decide, by decide⟩

/-- C5 (amended): the planner applies no self-match gate — a crossing
candidate pair is attempted even when both sides share a maker that is not
on the (unimplemented, hence empty) allow-list. -/
theorem c5_no_self_match_gate (env : Env) (b s : Order) (hb : b.orderType = 0)
    (hs : s.orderType = 1) (hk : orderKey s = orderKey b)
    (hp : s.targetPrice1e18 ≤ b.targetPrice1e18) (hm : b.maker = s.maker)
    (hal : b.maker ∉ ALLOW_LIST) :
    ∃ ok rest, tryInternalMatches env [b, s] =
      Event.matchCall b.id s.id ok :: rest := by
  rw [twoOrderTrace env b s hb hs hk hp]
  exact ⟨_, _, rfl⟩

/-- Fixture for the C5 witness. -/
def c5WBuy : Order :=
  ⟨16, "0xdd", "a", "b", "p", 5, 10, false, false, 0, 100⟩

/-- Fixture for the C5 witness. -/
def c5WSell : Order :=
  ⟨17, "0xdd", "b", "a", "p", 5, 10, false, false, 1, 100⟩

/-- Fixture for the C5 witness. -/
def c5WEnv : Env := ⟨fun _ _ _ => false, fun _ _ => ⟨false, false, 5⟩⟩

/-- C5 witness: the amended statement at a concrete same-maker pair. -/
theorem c5_witness :
    c5WBuy.maker = c5WSell.maker ∧
      ∃ ok rest, tryInternalMatches c5WEnv [c5WBuy, c5WSell] =
        Event.matchCall c5WBuy.id c5WSell.id ok :: rest :=
  ⟨by decide, c5_no_self_match_gate c5WEnv c5WBuy c5WSell (by decide)
    (by decide) (by decide) (by decide) (by decide) (by decide)⟩

/-! ## Claim C6: closed re-read stops the cycle -/

/-- C6: in every cycle trace, each `matchOrders` attempt is immediately
followed by re-reads of both orders, and once any re-read returns a closed
order (`filled || cancelled || amountIn == 0`) no further `matchOrders`
call occurs anywhere later in the cycle — in particular none for the
remaining buy/sell pairs of the current group. -/
theorem c6_closed_reread_stops (env : Env) (l : List Order) :
    stopsAfterClosed (tryInternalMatches env l) ∧
      ReReadsFollow (tryInternalMatches env l) := by
  unfold tryInternalMatches
  by_cases h : l.isEmpty
  · simp [h]
    exact ⟨trivial, ReReadsFollow.nil⟩
  · simp [h]
    exact groupsLoop_props env (groupsOf l) 0

/-! ## Claim C7: behaviour on match failure -/

/-- Fixture for C7: the buy. -/
def c7Buy : Order :=
  ⟨1, "0xd1", "a", "b", "p", 5, 10, false, false, 0, 100⟩

/-- Fixture for C7: first counterpart sell (lowest price). -/
def c7S1 : Order :=
  ⟨11, "0xd2", "b", "a", "p", 5, 10, false, false, 1, 50⟩

/-- Fixture for C7: second counterpart sell, also crossing the buy. -/
def c7S2 : Order :=
  ⟨12, "0xd3", "b", "a", "p", 5, 10, false, false, 1, 60⟩

/-- Fixture for C7: every `matchOrders` call fails; re-reads show both
orders still open. -/
def c7Env : Env := ⟨fun _ _ _ => false, fun _ _ => ⟨false, false, 5⟩⟩

/-- C7 counterexample: the match of buy 1 with sell 11 fails, yet the
planner still re-reads both orders, and it never tries the next sell 12 for
the same buy (it breaks to the next buy instead): the cycle trace contains
the re-read after the failed call and no attempt on `(1, 12)`. -/
theorem c7_counterexample :
    Event.matchCall 1 11 false ∈ tryInternalMatches c7Env [c7Buy, c7S1, c7S2] ∧
      Event.reReadCall 1 ⟨false, false, 5⟩ ∈
        tryInternalMatches c7Env [c7Buy, c7S1, c7S2] ∧
      countMatchPair 1 12 (tryInternalMatches c7Env [c7Buy, c7S1, c7S2]) = 0 := by
  refine ⟨by decide, by decide, by decide⟩

/-- C7 (amended): after any match attempt for a buy — failed or not — the
planner re-reads both orders and leaves the sell loop, so each buy yields at
most one `matchOrders` call per cycle and no further sell is tried for the
same buy; there is no retry counter. -/
theorem c7_failure_behaviour (env : Env) (buy : Order) (sells : List Order)
    (n : Nat) :
    countMatch (innerLoop env buy sells n).1 ≤ 1 ∧
      ReReadsFollow (innerLoop env buy sells n).1 :=
  ⟨innerLoop_countMatch_le_one env buy sells n,
    innerLoop_reReadsFollow env buy sells n⟩

/-! ## Claim C8: grouping symmetry -/

/-- C8: the pair key is invariant under swapping `tokenIn`/`tokenOut` and
under case changes: if `a` and `b'` agree after lower-casing, and so do `b`
and `a'`, then `pairKey a b = pairKey a' b'` — hence an order for pair
`(X, Y)` and one for `(Y, X)` land in the same group. -/
theorem c8_pairKey_symmetric (a b a' b' : String)
    (h1 : toLowerStr a = toLowerStr b') (h2 : toLowerStr b = toLowerStr a') :
    pairKey a b = pairKey a' b' := by
  unfold pairKey
  rw [← h1, ← h2]
  by_cases hxy : leChars (toLowerStr a).data (toLowerStr b).data = true
  · by_cases hyx : leChars (toLowerStr b).data (toLowerStr a).data = true
    · have heq : toLowerStr a = toLowerStr b :=
        string_eq_of_data_eq (leChars_antisymm _ _ hxy hyx)
      rw [heq]
    · simp [hxy, hyx]
  · by_cases hyx : leChars (toLowerStr b).data (toLowerStr a).data = true
    · simp [hxy, hyx]
    · rcases leChars_total (toLowerStr a).data (toLowerStr b).data with h | h
      · exact absurd h hxy
      · exact absurd h hyx

/-- C8 witness: the key invariance at concrete mixed-case addresses. -/
theorem c8_witness : pairKey "0xAb" "0xCd" = pairKey "0xcD" "0xaB" :=
  c8_pairKey_symmetric "0xAb" "0xCd" "0xcD" "0xaB" (by decide) (by decide)

/-! ## Claim C9: snapshot failure semantics -/

/-- C9: a failed read of a single order id is swallowed — the snapshot still
succeeds and simply lacks that id — whereas a failed `nextOrderId` read
rejects the whole snapshot, and the reconciliation loop treats any cycle
outcome, success or failure, as non-fatal and continues. -/
theorem c9_snapshot_failure_semantics :
    (∀ (n now : Nat) (g : Nat → Option RawOrder),
      ∃ l, fetchOpenOrders (.ok n) g now = .ok l) ∧
    (∀ (n now j : Nat) (g : Nat → Option RawOrder) (l : List Order),
      g j = none → fetchOpenOrders (.ok n) g now = .ok l →
        ∀ o ∈ l, o.id ≠ j) ∧
    (∀ (now : Nat) (g : Nat → Option RawOrder),
      fetchOpenOrders (.error ()) g now = .error ()) ∧
    (∀ r : Except Unit (List Event), loopIter r = .continued) := by
  refine ⟨fun n now g => ⟨_, rfl⟩, ?_, fun now g => rfl, fun r => ?_⟩
  · intro n now j g l hj hok o ho hid
    have hl : l = ((List.range' 1 (n - 1)).filterMap
        (fun id => (g id).map (fun o => (id, o)))).filterMap
          (includeOrder now) := by
      simpa [fetchOpenOrders] using hok.symm
    rw [hl] at ho
    rcases List.mem_filterMap.mp ho with ⟨p, hp, hpo⟩
    rcases mem_reads.mp hp with ⟨_, hgp⟩
    rw [← includeOrder_id hpo, hid] at hgp
    rw [hj] at hgp
    cases hgp
  · cases r <;> rfl

/-- Fixture for the C9 witness. -/
def c9WRaw : RawOrder :=
  ⟨"0xee", "a", "b", "p", 9, 10, false, false, 0, 100⟩

/-- Fixture for the C9 witness: order 1 reads fine, order 2's read fails. -/
def c9WGet : Nat → Option RawOrder :=
  fun id => if id = 1 then some c9WRaw else none

/-- C9 witness: with order 2's read failing, the snapshot still succeeds and
contains no entry for id 2. -/
theorem c9_witness :
    ∀ o ∈ [normalizeOrder 1 c9WRaw], o.id ≠ 2 :=
  c9_snapshot_failure_semantics.2.1 3 4 2 c9WGet [normalizeOrder 1 c9WRaw]
    rfl rfl

/-! ## Claim C10: grouping partitions the snapshot -/

/-- C10: grouping partitions its input — every snapshotted order lands in
the bucket of its own pair key, each bucket holds exactly the orders with
that key, the keys are pairwise distinct, and the bucket sizes sum to the
number of snapshotted orders. -/
theorem c10_grouping_partitions (l : List Order) :
    sumSizes (groupsOf l) = l.length ∧
      (∀ k, bucket k (groupsOf l) = l.filter (fun o => orderKey o == k)) ∧
      (∀ o ∈ l, o ∈ bucket (orderKey o) (groupsOf l)) ∧
      ((groupsOf l).map Prod.fst).Nodup := by
  refine ⟨sumSizes_groupsOf l, fun k => bucket_groupsOf k l, ?_,
    nodup_keys_groupsOf l⟩
  intro o ho
  rw [bucket_groupsOf]
  exact List.mem_filter.mpr ⟨ho, by simp⟩

end DexTrend
